import Mathlib

/-!
Shallow embedding of the AI base controller
(`src/karts/controller/ai_base_controller.cpp`) and the multitouch device
constructor (`src/input/multitouch_device.cpp`) of the stk-code repository.

C++ `float` values are modelled as rationals (`ℚ`); the transcendental
`asin` used in the final branch of `steerToPoint` is taken as an
uninterpreted function parameter, and the constant `M_PI` of
`normalizeAngle` as a positive parameter `pi`.  Divisions whose denominator
the code does not guard are modelled with an explicit zero test: reaching a
division with zero denominator yields `none`.
-/

namespace AIBaseController

/-- `NUM_COLLISION` constant of `AIBaseController::crashed`. -/
def NUM_COLLISION : Nat := 3

/-- `COLLISION_TIME` constant of `AIBaseController::crashed` (1.5 s). -/
def COLLISION_TIME : ℚ := 3/2

/-- The mutable controller state touched by `crashed`, `update` and
`reset`: the `m_stuck` flag and the `m_collision_times` vector (timestamps
in ascending order). -/
structure AIState where
  stuck : Bool
  collision_times : List ℚ
deriving DecidableEq

/-- The eviction loop of `AIBaseController::crashed`:
`while(size>0 && time - front > 1.0+COLLISION_TIME) erase(begin)`. -/
def trimOld (time : ℚ) : List ℚ → List ℚ
  | [] => []
  | t :: ts => if time - t > 1 + COLLISION_TIME then trimOld time ts else t :: ts

/-- Embedding of `AIBaseController::crashed(const Material*)`: the material
pointer is unused by the logic and omitted.  `time` is
`World::getWorld()->getTime()`. -/
def crashed (time : ℚ) (s : AIState) : AIState :=
  match s.collision_times with
  | [] => { s with collision_times := [time] }
  | t0 :: ts =>
    if time - (t0 :: ts).getLastD 0 < 1/5 then s
    else
      let log := trimOld time (t0 :: ts) ++ [time]
      if time - log.headD 0 > COLLISION_TIME ∧ log.length ≥ NUM_COLLISION then
        { stuck := true, collision_times := log }
      else
        { s with collision_times := log }

/-- Embedding of `AIBaseController::update(float dt)`: clears `m_stuck`. -/
def update (_dt : ℚ) (s : AIState) : AIState :=
  { s with stuck := false }

/-- Embedding of `AIBaseController::reset()`: clears `m_stuck` and the
collision log. -/
def reset (_s : AIState) : AIState :=
  { stuck := false, collision_times := [] }

/-- Embedding of `AIBaseController::doSkid(float steer_fraction)`.
`blockedByPlungerTime` is `m_kart->getBlockedByPlungerTime()`,
`skidVisualTime` is the kart's `getSkidVisualTime()`, and
`skidding_threshold` is `m_ai_properties->m_skidding_threshold`. -/
def doSkid (blockedByPlungerTime skidVisualTime skidding_threshold
    steer_fraction : ℚ) : Bool :=
  if blockedByPlungerTime > 0 then false
  else if skidVisualTime > 0 then false
  else decide (|steer_fraction| ≥ skidding_threshold)

/-- The signed turning radius `r = (x*x+y*y)/2x` computed by
`AIBaseController::steerToPoint` from the target's kart-local
coordinates (here with ℚ's total division, `_ / 0 = 0`). -/
def radius (lx lz : ℚ) : ℚ :=
  (lx * lx + lz * lz) / (2 * lx)

/-- Embedding of `AIBaseController::steerToPoint(const Vec3&)`, expressed on
the target's kart-local coordinates `lx` (lateral, `lc.getX()`) and `lz`
(forward, `lc.getZ()`), i.e. after the initial translate-and-rotate of the
target into the kart's frame.  `asinF` stands for the transcendental `asin`
of the final branch; `wheelBase`, `maxSteerAngle` and `skidding_threshold`
are the kart/AI properties read by the function.  A division whose
denominator is zero (unguarded in the source) is modelled as `none`. -/
def steerToPoint (asinF : ℚ → ℚ) (wheelBase maxSteerAngle
    skidding_threshold lx lz : ℚ) : Option ℚ :=
  if |lx| > |lz| then
    if lx > 0 then some (maxSteerAngle * skidding_threshold + 1/10)
    else some (-(maxSteerAngle * skidding_threshold) - 1/10)
  else if 2 * lx = 0 then none
  else
    let r := radius lx lz
    if r = 0 then none
    else
      let sin_steer_angle := wheelBase / r
      if sin_steer_angle ≤ -1 then
        some (-(maxSteerAngle * skidding_threshold) - 1/10)
      else if sin_steer_angle ≥ 1 then
        some (maxSteerAngle * skidding_threshold + 1/10)
      else
        some (asinF sin_steer_angle * 2)

/-- `KartControl::SC_NONE / SC_LEFT / SC_RIGHT`. -/
inductive SkidControl where
  | SC_NONE
  | SC_LEFT
  | SC_RIGHT
deriving DecidableEq

/-- The fields of `m_controls` written by `AIBaseController::setSteering`. -/
structure KartControl where
  m_steer : ℚ
  m_skid : SkidControl
deriving DecidableEq

/-- Embedding of `AIBaseController::setSteering(float angle, float dt)`.
`blockedByPlungerTime`, `skidVisualTime`, `skidding_threshold`,
`time_full_steer` (`m_ai_properties->m_time_full_steer`) and
`maxSteerAngle` are the kart/AI properties the function reads; `c` is the
incoming `m_controls` state.  `maxSteerAngle` is a positive kart property,
so the division `angle / maxSteerAngle` is kept as ℚ's total division. -/
def setSteering (blockedByPlungerTime skidVisualTime skidding_threshold
    time_full_steer maxSteerAngle angle dt : ℚ) (c : KartControl) :
    KartControl :=
  let steer_fraction := angle / maxSteerAngle
  let skid :=
    if ¬ doSkid blockedByPlungerTime skidVisualTime skidding_threshold
        steer_fraction then
      SkidControl.SC_NONE
    else if steer_fraction > 0 then SkidControl.SC_RIGHT
    else SkidControl.SC_LEFT
  let old_steer := c.m_steer
  let sf1 :=
    if steer_fraction > 1 then 1
    else if steer_fraction < -1 then -1
    else steer_fraction
  let sf2 :=
    if blockedByPlungerTime > 0 then
      if sf1 > 1/2 then 1/2
      else if sf1 < -(1/2) then -(1/2)
      else sf1
    else sf1
  let max_steer_change := dt / time_full_steer
  let new_steer :=
    if old_steer < sf2 then
      if old_steer + max_steer_change > sf2 then sf2
      else old_steer + max_steer_change
    else
      if old_steer - max_steer_change < sf2 then sf2
      else old_steer - max_steer_change
  { m_steer := new_steer, m_skid := skid }

/-- The clamped target fraction that `setSteering` ramps the stored steer
value toward: `angle / maxSteerAngle`, clamped to `[-1,1]`, then to
`[-1/2, 1/2]` while the plunger penalty is active. -/
def targetFraction (blockedByPlungerTime maxSteerAngle angle : ℚ) : ℚ :=
  let steer_fraction := angle / maxSteerAngle
  let sf1 :=
    if steer_fraction > 1 then 1
    else if steer_fraction < -1 then -1
    else steer_fraction
  if blockedByPlungerTime > 0 then
    if sf1 > 1/2 then 1/2
    else if sf1 < -(1/2) then -(1/2)
    else sf1
  else sf1

/-- The loop `while (angle > 2*M_PI) angle -= 2*M_PI` of
`AIBaseController::normalizeAngle`, with explicit fuel; the constant
`M_PI` is the parameter `pi`.  Fuel 2 is enough for every input that
passes the function's assertion (see the theorems below). -/
def subLoop (pi : ℚ) : Nat → ℚ → ℚ
  | 0, a => a
  | n + 1, a => if a > 2 * pi then subLoop pi n (a - 2 * pi) else a

/-- The loop `while (angle < -2*M_PI) angle += 2*M_PI` of
`AIBaseController::normalizeAngle`, with explicit fuel. -/
def addLoop (pi : ℚ) : Nat → ℚ → ℚ
  | 0, a => a
  | n + 1, a => if a < -(2 * pi) then addLoop pi n (a + 2 * pi) else a

/-- Embedding of `AIBaseController::normalizeAngle(float angle)`.  The
`assert(angle >= -4*M_PI && angle <= 4*M_PI)` is modelled by returning
`none` (assertion failure) outside that range; inside it each `while` loop
runs at most once, so fuel 2 computes the loops exactly. -/
def normalizeAngle (pi angle : ℚ) : Option ℚ :=
  if -(4 * pi) ≤ angle ∧ angle ≤ 4 * pi then
    let a1 := subLoop pi 2 angle
    let a2 := addLoop pi 2 a1
    some (if a2 > pi then a2 - 2 * pi
          else if a2 < -pi then a2 + 2 * pi
          else a2)
  else none

end AIBaseController

namespace MultitouchDevice

/-- The deadzone fields stored by the `MultitouchDevice` constructor. -/
structure DeviceZones where
  m_deadzone_center : ℚ
  m_deadzone_edge : ℚ
deriving DecidableEq

/-- Embedding of the deadzone initialisation in the
`MultitouchDevice::MultitouchDevice()` constructor: each configured value
is stored as `std::min(std::max(v, 0.0f), 0.5f)`. -/
def mkDevice (configCenter configEdge : ℚ) : DeviceZones :=
  { m_deadzone_center := min (max configCenter 0) (1/2),
    m_deadzone_edge := min (max configEdge 0) (1/2) }

end MultitouchDevice

namespace AIBaseController

/-- Helper: a single `crashed` call never clears an already-set stuck
flag. -/
lemma crashed_stuck_mono (t : ℚ) (s : AIState) (h : s.stuck = true) :
    (crashed t s).stuck = true := by
  obtain ⟨st, ts⟩ := s
  cases ts with
  | nil => simpa [crashed] using h
  | cons t0 rest =>
    simp only [crashed]
    split_ifs <;> simp_all

/-- C8: `doSkid` is a pure predicate: false whenever the plunger penalty is
active; false whenever the continuous-visual skid style is configured
(skid visual time positive); otherwise true exactly when
`|steer_fraction| >= skidding_threshold`. -/
theorem doSkid_spec (bp sv th sf : ℚ) :
    (bp > 0 → doSkid bp sv th sf = false) ∧
    (sv > 0 → doSkid bp sv th sf = false) ∧
    (bp ≤ 0 → sv ≤ 0 → (doSkid bp sv th sf = true ↔ |sf| ≥ th)) := by
  refine ⟨fun h => ?_, fun h => ?_, fun h1 h2 => ?_⟩
  · simp [doSkid, h]
  · simp only [doSkid]
    split_ifs <;> simp_all
  · simp [doSkid, not_lt.mpr h1, not_lt.mpr h2]

/-- Witness for C8 at concrete inputs. -/
theorem doSkid_spec_witness :
    doSkid 1 0 1 2 = false ∧ doSkid 0 1 1 2 = false ∧
    (doSkid 0 0 1 2 = true ↔ |(2:ℚ)| ≥ 1) :=
  ⟨(doSkid_spec 1 0 1 2).1 (by norm_num),
   (doSkid_spec 0 1 1 2).2.1 (by norm_num),
   (doSkid_spec 0 0 1 2).2.2 (by norm_num) (by norm_num)⟩

/-- C7: a collision reported less than 0.2 s after the last logged entry is
discarded: the whole state (log and stuck flag) is unchanged. -/
theorem crashed_debounce (time : ℚ) (s : AIState)
    (hne : s.collision_times ≠ [])
    (hdeb : time - s.collision_times.getLastD 0 < 1/5) :
    crashed time s = s := by
  obtain ⟨st, ts⟩ := s
  cases ts with
  | nil => simp at hne
  | cons t0 rest =>
    simp only [crashed]
    rw [if_pos hdeb]

/-- Witness for C7: collisions at t = 0.0 and t = 0.1 leave a log of one
entry, by applying the debounce theorem to the state after the first
call. -/
theorem crashed_debounce_witness :
    crashed (1/10) (AIState.mk false [0]) = AIState.mk false [0] :=
  crashed_debounce (1/10) (AIState.mk false [0]) (by simp)
    (by norm_num [List.getLastD])

/-- C1 counterexample: collisions at t = 0.0, 0.6, 1.2 (span 1.2 s, not
greater than the 1.5 s window) leave the stuck flag false after the third
call, contrary to the claim. -/
theorem crashed_three_collisions_cex :
    (crashed (6/5) (crashed (3/5) (crashed 0 (AIState.mk false [])))).stuck
      = false := by
  norm_num [crashed, trimOld, COLLISION_TIME, NUM_COLLISION]

/-- C1 (amended): on a non-discarded collision with the stuck flag not yet
set, `crashed` sets stuck exactly when, after evicting outdated entries and
appending `time`, `time - oldestInLog > COLLISION_TIME` and the log holds
at least `NUM_COLLISION` entries; hence the 0.0/0.6/1.2 trace leaves stuck
false (span 1.2 s does not exceed the window) while 0.0/0.8/1.6 sets it. -/
theorem crashed_stuck_condition (time : ℚ) (s : AIState)
    (hs : s.stuck = false) (hne : s.collision_times ≠ [])
    (hdeb : ¬ (time - s.collision_times.getLastD 0 < 1/5)) :
    ((crashed time s).stuck = true ↔
      (time - (trimOld time s.collision_times ++ [time]).headD 0
          > COLLISION_TIME ∧
        (trimOld time s.collision_times ++ [time]).length ≥ NUM_COLLISION)) ∧
    (crashed (6/5) (crashed (3/5) (crashed 0 (AIState.mk false [])))).stuck
      = false ∧
    (crashed (8/5) (crashed (4/5) (crashed 0 (AIState.mk false [])))).stuck
      = true := by
  refine ⟨?_, ?_, ?_⟩
  · obtain ⟨st, ts⟩ := s
    cases ts with
    | nil => simp at hne
    | cons t0 rest =>
      simp only [crashed]
      rw [if_neg hdeb]
      split_ifs with hc
      · exact iff_of_true rfl hc
      · simp only at hs
        subst hs
        exact iff_of_false (by simp) hc
  · norm_num [crashed, trimOld, COLLISION_TIME, NUM_COLLISION]
  · norm_num [crashed, trimOld, COLLISION_TIME, NUM_COLLISION]

/-- Witness for C1 (amended) at a concrete non-discarded collision. -/
theorem crashed_stuck_condition_witness :
    ((crashed (8/5) (AIState.mk false [0, 4/5])).stuck = true ↔
      ((8:ℚ)/5 - (trimOld (8/5) [0, 4/5] ++ [8/5]).headD 0 > COLLISION_TIME ∧
        (trimOld (8/5) [0, 4/5] ++ [8/5]).length ≥ NUM_COLLISION)) ∧
    (crashed (6/5) (crashed (3/5) (crashed 0 (AIState.mk false [])))).stuck
      = false ∧
    (crashed (8/5) (crashed (4/5) (crashed 0 (AIState.mk false [])))).stuck
      = true :=
  crashed_stuck_condition (8/5) (AIState.mk false [0, 4/5]) rfl (by simp)
    (by norm_num [List.getLastD])

/-- C10: `crashed` never clears the stuck flag (also along any sequence of
calls), while `update` and `reset` always clear it. -/
theorem stuck_flag_lifecycle :
    (∀ (t : ℚ) (s : AIState), s.stuck = true → (crashed t s).stuck = true) ∧
    (∀ (ts : List ℚ) (s : AIState), s.stuck = true →
      (ts.foldl (fun st t => crashed t st) s).stuck = true) ∧
    (∀ (dt : ℚ) (s : AIState), (update dt s).stuck = false) ∧
    (∀ s : AIState, (reset s).stuck = false) := by
  refine ⟨crashed_stuck_mono, ?_, fun _ _ => rfl, fun _ => rfl⟩
  intro ts
  induction ts with
  | nil => intro s h; simpa using h
  | cons t rest ih =>
    intro s h
    exact ih _ (crashed_stuck_mono t s h)

/-- Witness for C10 at concrete inputs. -/
theorem stuck_flag_lifecycle_witness :
    (crashed 7 (AIState.mk true [0])).stuck = true ∧
    (([5, 7] : List ℚ).foldl (fun st t => crashed t st)
      (AIState.mk true [0])).stuck = true ∧
    (update 1 (AIState.mk true [0])).stuck = false ∧
    (reset (AIState.mk true [0])).stuck = false :=
  ⟨stuck_flag_lifecycle.1 7 (AIState.mk true [0]) rfl,
   stuck_flag_lifecycle.2.1 [5, 7] (AIState.mk true [0]) rfl,
   stuck_flag_lifecycle.2.2.1 1 (AIState.mk true [0]),
   stuck_flag_lifecycle.2.2.2 (AIState.mk true [0])⟩

/-- C2 counterexample: the claim that the division by `2*lx` is only
reached with `lx` nonzero (so that no division by zero is ever performed)
fails at the target with local coordinates `lx = 0`, `lz = 10` (straight
ahead): the `|lx| > |lz|` guard does not fire and the division is reached
with a zero denominator. -/
theorem steerToPoint_divzero_cex :
    ¬ ∀ (asinF : ℚ → ℚ) (wb ms th lx lz : ℚ),
        (steerToPoint asinF wb ms th lx lz).isSome = true := by
  intro h
  have h0 := h (fun x => x) 1 1 1 0 10
  norm_num [steerToPoint] at h0

/-- C2 (amended): the radius division of `steerToPoint` is reached whenever
`|lx| ≤ |lz|`, which includes `lx = 0`; there its denominator `2*lx` is
zero.  For every input with `lx ≠ 0` every reached division has a nonzero
denominator and the function returns a (finite) steering angle: it fails to
produce a value exactly when `lx = 0`. -/
theorem steerToPoint_total_iff (asinF : ℚ → ℚ) (wb ms th lx lz : ℚ) :
    (steerToPoint asinF wb ms th lx lz).isSome = true ↔ lx ≠ 0 := by
  by_cases hx : lx = 0
  · subst hx
    simp [steerToPoint, not_lt.mpr (abs_nonneg lz)]
  · have h2 : 2 * lx ≠ 0 := mul_ne_zero two_ne_zero hx
    have hnum : lx * lx + lz * lz ≠ 0 := by
      have h1 : 0 < lx * lx := mul_self_pos.mpr hx
      nlinarith [mul_self_nonneg lz]
    have hr : radius lx lz ≠ 0 := div_ne_zero hnum h2
    simp only [steerToPoint]
    split_ifs <;> simp_all

/-- C5: both for targets with `|lx| > |lz|` and for targets whose required
radius makes `wheelBase / r` fall outside `[-1, 1]`, `steerToPoint` returns
the saturated angle of magnitude `maxSteerAngle * skidding_threshold + 0.1`
with the sign of `lx`, and feeding that angle's steer fraction to `doSkid`
yields true for any `skidding_threshold ≤ 1` (no plunger penalty, legacy
skid style). -/
theorem steerToPoint_saturation (asinF : ℚ → ℚ) (wb ms th lx lz bp sv : ℚ)
    (hwb : 0 < wb) (hms : 0 < ms) (hth0 : 0 ≤ th) (hth1 : th ≤ 1)
    (hbp : bp ≤ 0) (hsv : sv ≤ 0)
    (hcase : |lx| > |lz| ∨ 1 < |wb / radius lx lz|) :
    ∃ a, steerToPoint asinF wb ms th lx lz = some a ∧
      |a| = ms * th + 1/10 ∧
      (0 < lx → 0 < a) ∧ (lx < 0 → a < 0) ∧
      doSkid bp sv th (a / ms) = true := by
  have hsat : 0 < ms * th + 1/10 := by nlinarith
  have hskid : ∀ a : ℚ, |a| = ms * th + 1/10 →
      doSkid bp sv th (a / ms) = true := by
    intro a ha
    simp only [doSkid, if_neg (not_lt.mpr hbp), if_neg (not_lt.mpr hsv)]
    rw [decide_eq_true_eq, abs_div, ha, abs_of_pos hms, ge_iff_le,
      le_div_iff₀ hms]
    nlinarith
  rcases lt_trichotomy lx 0 with hneg | hzero | hpos
  · have haneg : -(ms * th) - 1/10 < 0 := by linarith
    have haval : |(-(ms * th) - 1/10 : ℚ)| = ms * th + 1/10 := by
      rw [abs_of_neg haneg]; ring
    refine ⟨-(ms * th) - 1/10, ?_, haval,
      fun h => absurd h (lt_asymm hneg), fun _ => haneg, hskid _ haval⟩
    by_cases habs : |lx| > |lz|
    · simp only [steerToPoint, if_pos habs, if_neg (not_lt.mpr hneg.le)]
    · have hratio : 1 < |wb / radius lx lz| := hcase.resolve_left habs
      have hden : 2 * lx < 0 := by linarith
      have hnum : 0 < lx * lx + lz * lz := by nlinarith [mul_self_nonneg lz]
      have hrneg : radius lx lz < 0 := div_neg_of_pos_of_neg hnum hden
      have hsneg : wb / radius lx lz < 0 := div_neg_of_pos_of_neg hwb hrneg
      have hsin : wb / radius lx lz < -1 := by
        rw [abs_of_neg hsneg] at hratio; linarith
      simp only [steerToPoint, if_neg habs, if_neg (ne_of_lt hden),
        if_neg (ne_of_lt hrneg), if_pos (le_of_lt hsin)]
  · exfalso
    rcases hcase with h | h
    · rw [hzero] at h
      simp only [abs_zero] at h
      exact absurd h (not_lt.mpr (abs_nonneg lz))
    · rw [hzero] at h
      norm_num [radius] at h
  · refine ⟨ms * th + 1/10, ?_, abs_of_pos hsat, fun _ => hsat,
      fun h => absurd h (lt_asymm hpos), hskid _ (abs_of_pos hsat)⟩
    by_cases habs : |lx| > |lz|
    · simp only [steerToPoint, if_pos habs, if_pos hpos]
    · have hratio : 1 < |wb / radius lx lz| := hcase.resolve_left habs
      have hden : 0 < 2 * lx := by linarith
      have hnum : 0 < lx * lx + lz * lz := by nlinarith [mul_self_nonneg lz]
      have hrpos : 0 < radius lx lz := div_pos hnum hden
      have hspos : 0 < wb / radius lx lz := div_pos hwb hrpos
      have hsin : 1 < wb / radius lx lz := by
        rwa [abs_of_pos hspos] at hratio
      simp only [steerToPoint, if_neg habs, if_neg (ne_of_gt hden),
        if_neg (ne_of_gt hrpos),
        if_neg (not_le.mpr (by linarith : (-1:ℚ) < wb / radius lx lz)),
        if_pos (le_of_lt hsin)]

/-- Witness for C5 at a concrete target with `|lx| > |lz|`. -/
theorem steerToPoint_saturation_witness :
    ∃ a, steerToPoint (fun x => x) 1 1 1 1 0 = some a ∧
      |a| = 1 * 1 + 1/10 ∧
      ((0:ℚ) < 1 → 0 < a) ∧ ((1:ℚ) < 0 → a < 0) ∧
      doSkid 0 0 1 (a / 1) = true :=
  steerToPoint_saturation (fun x => x) 1 1 1 1 0 0 0 (by norm_num)
    (by norm_num) (by norm_num) (by norm_num) (by norm_num) (by norm_num)
    (Or.inl (by norm_num))

/-- Helper: the steer value written by `setSteering` is the previous value
moved toward the clamped target fraction by at most `dt / time_full_steer`,
exactly as in the source's final if/else. -/
lemma setSteering_m_steer (bp sv th tfs ms angle dt : ℚ) (c : KartControl) :
    (setSteering bp sv th tfs ms angle dt c).m_steer =
      (if c.m_steer < targetFraction bp ms angle then
        (if c.m_steer + dt / tfs > targetFraction bp ms angle
          then targetFraction bp ms angle else c.m_steer + dt / tfs)
      else
        (if c.m_steer - dt / tfs < targetFraction bp ms angle
          then targetFraction bp ms angle else c.m_steer - dt / tfs)) := rfl

/-- Helper: the clamped target fraction always lies in `[-1, 1]`. -/
lemma targetFraction_bounds (bp ms angle : ℚ) :
    -1 ≤ targetFraction bp ms angle ∧ targetFraction bp ms angle ≤ 1 := by
  simp only [targetFraction]
  split_ifs <;> constructor <;> linarith

/-- Helper: under the plunger penalty the clamped target fraction lies in
`[-1/2, 1/2]`. -/
lemma targetFraction_penalty_bounds (bp ms angle : ℚ) (hbp : 0 < bp) :
    -(1/2) ≤ targetFraction bp ms angle ∧
      targetFraction bp ms angle ≤ 1/2 := by
  simp only [targetFraction]
  rw [if_pos hbp]
  split_ifs <;> constructor <;> linarith

/-- Helper: the new steer value lies between the previous value and the
clamped target fraction. -/
lemma setSteering_between (bp sv th tfs ms angle dt : ℚ) (c : KartControl)
    (hmc : 0 ≤ dt / tfs) :
    min c.m_steer (targetFraction bp ms angle)
        ≤ (setSteering bp sv th tfs ms angle dt c).m_steer ∧
      (setSteering bp sv th tfs ms angle dt c).m_steer
        ≤ max c.m_steer (targetFraction bp ms angle) := by
  rw [setSteering_m_steer]
  split_ifs <;> refine ⟨?_, ?_⟩ <;> simp only [min_def, max_def] <;>
    split_ifs <;> linarith

/-- Helper: one `setSteering` call moves the steer value by at most
`dt / time_full_steer`. -/
lemma setSteering_change_bound (bp sv th tfs ms angle dt : ℚ)
    (c : KartControl) (hmc : 0 ≤ dt / tfs) :
    |(setSteering bp sv th tfs ms angle dt c).m_steer - c.m_steer|
      ≤ dt / tfs := by
  rw [setSteering_m_steer]
  split_ifs <;> rw [abs_le] <;> constructor <;> linarith

/-- Helper: when the previous value is within `dt / time_full_steer` of the
clamped target, one call lands exactly on the target. -/
lemma setSteering_reaches (bp sv th tfs ms angle dt : ℚ) (c : KartControl)
    (h : |c.m_steer - targetFraction bp ms angle| ≤ dt / tfs) :
    (setSteering bp sv th tfs ms angle dt c).m_steer
      = targetFraction bp ms angle := by
  rw [abs_le] at h
  rw [setSteering_m_steer]
  split_ifs <;> linarith

/-- Helper: when the previous value is farther than `dt / time_full_steer`
from the clamped target, one call shrinks the distance by exactly that
amount. -/
lemma setSteering_progress (bp sv th tfs ms angle dt : ℚ) (c : KartControl)
    (h : dt / tfs ≤ |c.m_steer - targetFraction bp ms angle|) :
    |(setSteering bp sv th tfs ms angle dt c).m_steer
        - targetFraction bp ms angle|
      = |c.m_steer - targetFraction bp ms angle| - dt / tfs := by
  rcases lt_or_ge c.m_steer (targetFraction bp ms angle) with h1 | h1
  · rw [abs_of_neg (by linarith : c.m_steer - targetFraction bp ms angle < 0)]
      at h ⊢
    rw [setSteering_m_steer, if_pos h1, if_neg (by linarith)]
    rw [abs_of_nonpos (by linarith)]
    ring
  · rw [abs_of_nonneg (by linarith : 0 ≤ c.m_steer - targetFraction bp ms angle)]
      at h ⊢
    rw [setSteering_m_steer, if_neg (not_lt.mpr h1), if_neg (by linarith)]
    rw [abs_of_nonneg (by linarith)]
    ring

/-- Helper: a state already at the clamped target stays there under any
number of further `setSteering` calls (the target is a fixed point). -/
lemma setSteering_iterate_fixed (bp sv th tfs ms angle dt : ℚ)
    (hmc : 0 ≤ dt / tfs) :
    ∀ (n : ℕ) (c : KartControl),
      c.m_steer = targetFraction bp ms angle →
      ((setSteering bp sv th tfs ms angle dt)^[n] c).m_steer
        = targetFraction bp ms angle := by
  intro n
  induction n with
  | zero => intro c h; simpa using h
  | succ n ih =>
    intro c h
    rw [Function.iterate_succ_apply]
    exact ih _ (setSteering_reaches bp sv th tfs ms angle dt c
      (by rw [h, sub_self, abs_zero]; exact hmc))

/-- Helper: once enough calls have accumulated at least the initial
distance to the clamped target, the iterate sits exactly on the target. -/
lemma setSteering_iterate_reaches (bp sv th tfs ms angle dt : ℚ)
    (hmc : 0 ≤ dt / tfs) :
    ∀ (n : ℕ) (c : KartControl),
      |c.m_steer - targetFraction bp ms angle| ≤ n * (dt / tfs) →
      ((setSteering bp sv th tfs ms angle dt)^[n] c).m_steer
        = targetFraction bp ms angle := by
  intro n
  induction n with
  | zero =>
    intro c h
    simp only [Function.iterate_zero_apply]
    have h0 : c.m_steer - targetFraction bp ms angle = 0 :=
      abs_nonpos_iff.mp (by simpa using h)
    linarith
  | succ n ih =>
    intro c h
    rw [Function.iterate_succ_apply]
    rcases le_or_lt |c.m_steer - targetFraction bp ms angle| (dt / tfs)
      with hle | hgt
    · exact setSteering_iterate_fixed bp sv th tfs ms angle dt hmc n _
        (setSteering_reaches bp sv th tfs ms angle dt c hle)
    · apply ih
      rw [setSteering_progress bp sv th tfs ms angle dt c hgt.le]
      push_cast at h
      linarith

/-- C3 counterexample: with the plunger penalty active (blocked time 1),
previous steer 1 (within `[-1, 1]`), `dt = 1/10`, `time_full_steer = 1`,
the call only ramps toward the clamped target `1/2` and returns `9/10`,
outside `[-1/2, 1/2]`. -/
theorem setSteering_penalty_range_cex :
    (1:ℚ) > 0 ∧ -1 ≤ (1:ℚ) ∧ (1:ℚ) ≤ 1 ∧ (0:ℚ) ≤ 1/10 ∧ (0:ℚ) < 1 ∧
    (setSteering 1 0 1 1 1 1 (1/10)
        (KartControl.mk 1 SkidControl.SC_NONE)).m_steer = 9/10 ∧
    ¬ ((9:ℚ)/10 ≤ 1/2) := by
  norm_num [setSteering, doSkid]

/-- C3 (amended): for `0 ≤ dt` and `0 < time_full_steer`, a previous steer
fraction in `[-1, 1]` yields a result in `[-1, 1]`; under the plunger
penalty the *target* is clamped to `[-1/2, 1/2]`, so the result lies in
`[-1/2, 1/2]` provided the previous steer fraction already does (the code
does not clamp the output itself, only the target it ramps toward). -/
theorem setSteering_output_range (bp sv th tfs ms angle dt : ℚ)
    (c : KartControl) (hdt : 0 ≤ dt) (htfs : 0 < tfs) :
    (-1 ≤ c.m_steer → c.m_steer ≤ 1 →
      -1 ≤ (setSteering bp sv th tfs ms angle dt c).m_steer ∧
        (setSteering bp sv th tfs ms angle dt c).m_steer ≤ 1) ∧
    (0 < bp → -(1/2) ≤ c.m_steer → c.m_steer ≤ 1/2 →
      -(1/2) ≤ (setSteering bp sv th tfs ms angle dt c).m_steer ∧
        (setSteering bp sv th tfs ms angle dt c).m_steer ≤ 1/2) := by
  have hmc : 0 ≤ dt / tfs := div_nonneg hdt htfs.le
  have hbet := setSteering_between bp sv th tfs ms angle dt c hmc
  refine ⟨fun h1 h2 => ⟨?_, ?_⟩, fun hbp h1 h2 => ⟨?_, ?_⟩⟩
  · exact le_trans (le_min h1 (targetFraction_bounds bp ms angle).1) hbet.1
  · exact le_trans hbet.2 (max_le h2 (targetFraction_bounds bp ms angle).2)
  · exact le_trans
      (le_min h1 (targetFraction_penalty_bounds bp ms angle hbp).1) hbet.1
  · exact le_trans hbet.2
      (max_le h2 (targetFraction_penalty_bounds bp ms angle hbp).2)

/-- Witness for C3 (amended) at concrete inputs. -/
theorem setSteering_output_range_witness :
    (-1 ≤ (KartControl.mk 1 SkidControl.SC_NONE).m_steer →
      (KartControl.mk 1 SkidControl.SC_NONE).m_steer ≤ 1 →
      -1 ≤ (setSteering 1 0 1 1 1 1 (1/10)
          (KartControl.mk 1 SkidControl.SC_NONE)).m_steer ∧
        (setSteering 1 0 1 1 1 1 (1/10)
          (KartControl.mk 1 SkidControl.SC_NONE)).m_steer ≤ 1) ∧
    ((0:ℚ) < 1 → -(1/2) ≤ (KartControl.mk 1 SkidControl.SC_NONE).m_steer →
      (KartControl.mk 1 SkidControl.SC_NONE).m_steer ≤ 1/2 →
      -(1/2) ≤ (setSteering 1 0 1 1 1 1 (1/10)
          (KartControl.mk 1 SkidControl.SC_NONE)).m_steer ∧
        (setSteering 1 0 1 1 1 1 (1/10)
          (KartControl.mk 1 SkidControl.SC_NONE)).m_steer ≤ 1/2) :=
  setSteering_output_range 1 0 1 1 1 1 (1/10)
    (KartControl.mk 1 SkidControl.SC_NONE) (by norm_num) (by norm_num)

/-- C6: one `setSteering` call changes the stored steer value by at most
`dt / time_full_steer`; the clamped target fraction is a fixed point; and
with `0 < dt` repeated calls reach the clamped target in finitely many
steps and stay there. -/
theorem setSteering_rate_and_convergence (bp sv th tfs ms angle dt : ℚ)
    (c : KartControl) (hdt : 0 ≤ dt) (htfs : 0 < tfs) :
    |(setSteering bp sv th tfs ms angle dt c).m_steer - c.m_steer|
        ≤ dt / tfs ∧
    (c.m_steer = targetFraction bp ms angle →
      (setSteering bp sv th tfs ms angle dt c).m_steer = c.m_steer) ∧
    (0 < dt → ∃ N : ℕ, ∀ n, N ≤ n →
      ((setSteering bp sv th tfs ms angle dt)^[n] c).m_steer
        = targetFraction bp ms angle) := by
  have hmc : 0 ≤ dt / tfs := div_nonneg hdt htfs.le
  refine ⟨setSteering_change_bound bp sv th tfs ms angle dt c hmc,
    fun h => ?_, fun hdt0 => ?_⟩
  · rw [setSteering_reaches bp sv th tfs ms angle dt c
      (by rw [h, sub_self, abs_zero]; exact hmc), h]
  · have hmcpos : 0 < dt / tfs := div_pos hdt0 htfs
    refine ⟨Nat.ceil (|c.m_steer - targetFraction bp ms angle| / (dt / tfs)),
      fun n hn => ?_⟩
    apply setSteering_iterate_reaches bp sv th tfs ms angle dt hmc
    have h1 : |c.m_steer - targetFraction bp ms angle| / (dt / tfs)
        ≤ (Nat.ceil (|c.m_steer - targetFraction bp ms angle| / (dt / tfs))
          : ℚ) :=
      Nat.le_ceil _
    have h2 : ((Nat.ceil (|c.m_steer - targetFraction bp ms angle|
        / (dt / tfs)) : ℕ) : ℚ) ≤ (n : ℚ) := by
      exact_mod_cast hn
    have h3 : |c.m_steer - targetFraction bp ms angle|
        = (|c.m_steer - targetFraction bp ms angle| / (dt / tfs))
          * (dt / tfs) := by
      field_simp
    rw [h3]
    exact mul_le_mul_of_nonneg_right (le_trans h1 h2) hmcpos.le

/-- Helper: with fuel 2 the subtracting loop of `normalizeAngle` runs at
most once on inputs `≤ 4*pi`, so the fuelled loop equals the source's
unbounded `while`. -/
lemma subLoop_two (pi a : ℚ) (h2 : a ≤ 4 * pi) :
    (subLoop pi 2 a = a ∧ ¬ (a > 2 * pi)) ∨
      (subLoop pi 2 a = a - 2 * pi ∧ a > 2 * pi) := by
  by_cases hc : a > 2 * pi
  · right
    refine ⟨?_, hc⟩
    simp only [subLoop, if_pos hc]
    rw [if_neg (by push_neg; linarith : ¬ (a - 2 * pi > 2 * pi))]
  · left
    exact ⟨by simp [subLoop, hc], hc⟩

/-- Helper: with fuel 2 the adding loop of `normalizeAngle` runs at most
once on inputs `≥ -4*pi`. -/
lemma addLoop_two (pi a : ℚ) (h1 : -(4 * pi) ≤ a) :
    (addLoop pi 2 a = a ∧ ¬ (a < -(2 * pi))) ∨
      (addLoop pi 2 a = a + 2 * pi ∧ a < -(2 * pi)) := by
  by_cases hc : a < -(2 * pi)
  · right
    refine ⟨?_, hc⟩
    simp only [addLoop, if_pos hc]
    rw [if_neg (by push_neg; linarith : ¬ (a + 2 * pi < -(2 * pi)))]
  · left
    exact ⟨by simp [addLoop, hc], hc⟩

/-- C4 counterexample: with `pi = 1`, the in-range input `-3` (standing for
`-3π`) is normalised to exactly `-1` (i.e. `-π`), which is *not* in the
claimed half-open interval `(-π, π]`. -/
theorem normalizeAngle_boundary_cex :
    (0:ℚ) < 1 ∧ -(4 * 1) ≤ (-3 : ℚ) ∧ (-3 : ℚ) ≤ 4 * 1 ∧
    normalizeAngle 1 (-3) = some (-1) ∧ ¬ (-(1:ℚ) < -1) := by
  norm_num [normalizeAngle, subLoop, addLoop]

/-- C4 (amended): for any positive `pi`, every input in `[-4*pi, 4*pi]` is
mapped to a value in the *closed* interval `[-pi, pi]` (the value `-pi` is
attained, e.g. at input `-3*pi`) differing from the input by an integer
multiple of `2*pi`; inputs outside `[-4*pi, 4*pi]` fail the assertion. -/
theorem normalizeAngle_spec (pi angle : ℚ) (hpi : 0 < pi) :
    (-(4 * pi) ≤ angle → angle ≤ 4 * pi →
      ∃ r : ℚ, ∃ k : ℤ, normalizeAngle pi angle = some r ∧
        r = angle - 2 * pi * (k : ℚ) ∧ -pi ≤ r ∧ r ≤ pi) ∧
    ((angle < -(4 * pi) ∨ 4 * pi < angle) →
      normalizeAngle pi angle = none) := by
  constructor
  · intro h1 h2
    simp only [normalizeAngle, if_pos (And.intro h1 h2)]
    rcases subLoop_two pi angle h2 with ⟨he, hc⟩ | ⟨he, hc⟩ <;> rw [he]
    · rcases addLoop_two pi angle h1 with ⟨he2, hc2⟩ | ⟨he2, hc2⟩ <;> rw [he2]
      · split_ifs with hf1 hf2
        · exact ⟨_, 1, rfl, by push_cast; ring, by linarith, by linarith⟩
        · exact ⟨_, -1, rfl, by push_cast; ring, by linarith, by linarith⟩
        · exact ⟨_, 0, rfl, by push_cast; ring, by linarith, by linarith⟩
      · split_ifs with hf1 hf2
        · exact ⟨_, 0, rfl, by push_cast; ring, by linarith, by linarith⟩
        · exact ⟨_, -2, rfl, by push_cast; ring, by linarith, by linarith⟩
        · exact ⟨_, -1, rfl, by push_cast; ring, by linarith, by linarith⟩
    · have h1' : -(4 * pi) ≤ angle - 2 * pi := by linarith
      rcases addLoop_two pi (angle - 2 * pi) h1' with ⟨he2, hc2⟩ | ⟨he2, hc2⟩
        <;> rw [he2]
      · split_ifs with hf1 hf2
        · exact ⟨_, 2, rfl, by push_cast; ring, by linarith, by linarith⟩
        · exact ⟨_, 0, rfl, by push_cast; ring, by linarith, by linarith⟩
        · exact ⟨_, 1, rfl, by push_cast; ring, by linarith, by linarith⟩
      · split_ifs with hf1 hf2
        · exact ⟨_, 1, rfl, by push_cast; ring, by linarith, by linarith⟩
        · exact ⟨_, -1, rfl, by push_cast; ring, by linarith, by linarith⟩
        · exact ⟨_, 0, rfl, by push_cast; ring, by linarith, by linarith⟩
  · intro h
    have hnc : ¬ (-(4 * pi) ≤ angle ∧ angle ≤ 4 * pi) := by
      rcases h with h | h
      · exact fun hc => absurd hc.1 (not_le.mpr h)
      · exact fun hc => absurd hc.2 (not_le.mpr h)
    simp only [normalizeAngle, if_neg hnc]

/-- Witness for C4 (amended) at `pi = 1`, `angle = 3`. -/
theorem normalizeAngle_spec_witness :
    ∃ r : ℚ, ∃ k : ℤ, normalizeAngle 1 3 = some r ∧
      r = 3 - 2 * 1 * (k : ℚ) ∧ -1 ≤ r ∧ r ≤ 1 :=
  (normalizeAngle_spec 1 3 (by norm_num)).1 (by norm_num) (by norm_num)

/-- Witness for C6 at concrete inputs. -/
theorem setSteering_rate_and_convergence_witness :
    |(setSteering 0 0 1 1 1 1 1
        (KartControl.mk 0 SkidControl.SC_NONE)).m_steer
        - (KartControl.mk 0 SkidControl.SC_NONE).m_steer| ≤ 1 / 1 ∧
    ((KartControl.mk 0 SkidControl.SC_NONE).m_steer = targetFraction 0 1 1 →
      (setSteering 0 0 1 1 1 1 1
          (KartControl.mk 0 SkidControl.SC_NONE)).m_steer
        = (KartControl.mk 0 SkidControl.SC_NONE).m_steer) ∧
    ((0:ℚ) < 1 → ∃ N : ℕ, ∀ n, N ≤ n →
      ((setSteering 0 0 1 1 1 1 1)^[n]
          (KartControl.mk 0 SkidControl.SC_NONE)).m_steer
        = targetFraction 0 1 1) :=
  setSteering_rate_and_convergence 0 0 1 1 1 1 1
    (KartControl.mk 0 SkidControl.SC_NONE) (by norm_num) (by norm_num)

end AIBaseController

namespace MultitouchDevice

/-- C9: the constructor stores each configured deadzone clamped into
`[0, 1/2]`: negative values become 0, values above 1/2 become 1/2,
in-range values are kept; construction is total (never signals an
error). -/
theorem mkDevice_clamps (c e : ℚ) :
    (c < 0 → (mkDevice c e).m_deadzone_center = 0) ∧
    (c > 1/2 → (mkDevice c e).m_deadzone_center = 1/2) ∧
    (0 ≤ c → c ≤ 1/2 → (mkDevice c e).m_deadzone_center = c) ∧
    (e < 0 → (mkDevice c e).m_deadzone_edge = 0) ∧
    (e > 1/2 → (mkDevice c e).m_deadzone_edge = 1/2) ∧
    (0 ≤ e → e ≤ 1/2 → (mkDevice c e).m_deadzone_edge = e) := by
  refine ⟨fun h => ?_, fun h => ?_, fun h0 h1 => ?_,
          fun h => ?_, fun h => ?_, fun h0 h1 => ?_⟩ <;>
    simp only [mkDevice]
  · rw [max_eq_right h.le, min_eq_left (by norm_num)]
  · rw [max_eq_left (by linarith), min_eq_right h.le]
  · rw [max_eq_left h0, min_eq_left h1]
  · rw [max_eq_right h.le, min_eq_left (by norm_num)]
  · rw [max_eq_left (by linarith), min_eq_right h.le]
  · rw [max_eq_left h0, min_eq_left h1]

/-- Witness for C9 at concrete inputs. -/
theorem mkDevice_clamps_witness :
    (mkDevice (-1) 1).m_deadzone_center = 0 ∧
    (mkDevice (-1) 1).m_deadzone_edge = 1/2 :=
  ⟨(mkDevice_clamps (-1) 1).1 (by norm_num),
   (mkDevice_clamps (-1) 1).2.2.2.2.1 (by norm_num)⟩

end MultitouchDevice
